import Mathlib

/-!
Verification of the iterator-plumbing stream library (src/stream.js and
src/asyncstream.js) against its natural-language specification.

The library exposes pull-based streams: an iterator protocol where next()
returns a record of done and value.  We embed each concrete producer class
as a Lean structure whose state is the data the JavaScript object holds,
with next modelled as a function from the state to a pair of an optional
value (none encodes a done result) and the successor state.  Array-backed
iterators are the remaining suffix of the source array.  Promises in the
asynchronous variant resolve deterministically, so an asynchronous pull is
modelled by the same state-passing shape; only the bookkeeping that differs
between the two variants (for example the forEach index handling and the
flatten retry loop) is embedded separately.
-/

namespace IterPlumbing

/-- JavaScript values where the distinction between undefined, null and
ordinary data matters (the some combinator compares its result against
undefined with loose equality). -/
inductive JSVal where
  | undef
  | null
  | num (n : Int)
deriving DecidableEq

/-- Loose equality against undefined: in JavaScript, x != undefined is
false exactly when x is undefined or null. -/
def looseEqUndefined : JSVal → Bool
  | .undef => true
  | .null => true
  | .num _ => false

/-- Errors thrown by the library code. -/
inductive JSError where
  | typeError
  | rangeError
  | referenceError
deriving DecidableEq

/-- Stream/Stream.from wraps the iterator of the source array; the state of
the wrapped iterator is the suffix of the array not yet yielded. -/
structure ArrayStream (α : Type) where
  elems : List α
deriving DecidableEq

/-- Iterator-protocol next for an array-backed stream: pops the head. -/
def ArrayStream.next : ArrayStream α → Option α × ArrayStream α
  | ⟨[]⟩ => (none, ⟨[]⟩)
  | ⟨v :: rest⟩ => (some v, ⟨rest⟩)

/-- Loop of BaseStream.toArray over an array-backed stream: pulls next()
until done, collecting every value in order.  Each non-done pull removes
one element of the remaining suffix, so the loop is structural recursion
on the suffix. -/
def arrayDrain : List α → List α
  | [] => []
  | v :: rest => v :: arrayDrain rest

/-- BaseStream.toArray applied to an array-backed stream. -/
def ArrayStream.toArray (s : ArrayStream α) : List α :=
  arrayDrain s.elems

/-- Source values handed to the construction adapters.  A source is either
iterable (it has a Symbol.iterator method, carrying its elements), a
non-iterable plain object, a non-iterable primitive such as a number, or
nullish (null or undefined).  The distinctions are the ones JavaScript
itself makes in the adapters: a property access on a nullish value throws,
the in operator throws on any non-object, and every other non-iterable
reaches the fallback branch. -/
inductive Source (α : Type) where
  | iterable (elems : List α)
  | plainObject (v : α)
  | primitive (v : α)
  | nullish
deriving DecidableEq

/-- Stream.from: reads source[Symbol.iterator].  On a nullish source that
property access itself throws a TypeError and no stream is produced.
Otherwise, when the property is present the iterator is wrapped, and when
it is absent (non-iterable object or primitive - both box to an object for
the read) the code falls back to Stream.of(source), which builds the
one-element stream over the argument list. -/
def streamFrom : Source α → Except JSError (ArrayStream α)
  | .iterable es => .ok ⟨es⟩
  | .plainObject v => .ok ⟨[v]⟩
  | .primitive v => .ok ⟨[v]⟩
  | .nullish => .error .typeError

/-- AsyncStream.from: tests Symbol.iterator in source.  On an iterable it
wraps the iterator in promise-resolving next calls.  On a non-iterable
object the test is false and the code falls through to Stream.of(source),
but the name Stream is not bound anywhere in asyncstream.js, so the call
raises a ReferenceError.  On a primitive or nullish source the in operator
itself raises a TypeError before the branch is taken. -/
def asyncStreamFrom : Source α → Except JSError (ArrayStream α)
  | .iterable es => .ok ⟨es⟩
  | .plainObject _ => .error .referenceError
  | .primitive _ => .error .typeError
  | .nullish => .error .typeError

/-- Synchronous BaseStream.forEach: records each callback invocation as a
pair of the value and the index argument passed to the callback.  The
source calls callback(item.value, index++, context): the index is read
before it is incremented, so the first element is visited with index 0. -/
def forEachVisits : List α → Nat → List (α × Nat)
  | [], _ => []
  | v :: rest, i => (v, i) :: forEachVisits rest (i + 1)

/-- Asynchronous BaseAsyncStream.forEach: the source executes index++ and
then callback(value, index, context), so the callback sees the counter
after the increment - the first element is visited with index 1. -/
def asyncForEachVisits : List α → Nat → List (α × Nat)
  | [], _ => []
  | v :: rest, i => (v, i + 1) :: asyncForEachVisits rest (i + 1)

/-- Asynchronous BaseAsyncStream.toArray: drains the stream through
forEach, pushing each visited value onto an array. -/
def asyncToArray (S : List α) : List α :=
  (asyncForEachVisits S 0).map Prod.fst

/-- Synchronous FilterStream over an array-backed upstream iterator.  The
constructor stores the upstream iterator, the predicate, the supplied
context and an index starting at 0.  The predicate receives the context as
an optional third argument: in the synchronous source, next() invokes
this.predicate(current.value, this.index++) with only two arguments, so
the predicate sees the context argument as undefined (modelled none) even
though this.context holds the value given to filter. -/
structure FilterStream (α γ : Type) where
  iterator : List α
  predicate : α → Nat → Option γ → Bool
  context : Option γ
  index : Nat

/-- Loop body of the synchronous FilterStream.next: scan the remaining
upstream elements, incrementing the index on every non-done pull, until
the upstream is done or the predicate accepts; the predicate is invoked
without the context argument. -/
def filterScan (p : α → Nat → Option γ → Bool) (c : Option γ) :
    List α → Nat → Option α × FilterStream α γ
  | [], i => (none, ⟨[], p, c, i⟩)
  | v :: rest, i =>
    if p v i none then (some v, ⟨rest, p, c, i + 1⟩)
    else filterScan p c rest (i + 1)

/-- Synchronous FilterStream.next. -/
def FilterStream.next (s : FilterStream α γ) : Option α × FilterStream α γ :=
  filterScan s.predicate s.context s.iterator s.index

/-- Loop of BaseStream.toArray fused with FilterStream.next: collect the
values the filtered stream yields, in order, until it reports done. -/
def filterDrain (p : α → Nat → Option γ → Bool) (c : Option γ) :
    List α → Nat → List α
  | [], _ => []
  | v :: rest, i =>
    if p v i none then v :: filterDrain p c rest (i + 1)
    else filterDrain p c rest (i + 1)

/-- BaseStream.toArray applied to a FilterStream. -/
def FilterStream.toArray (s : FilterStream α γ) : List α :=
  filterDrain s.predicate s.context s.iterator s.index

/-- Loop of the asynchronous FilterAsyncStream.next fused with the toArray
drain: identical to the synchronous scan except that the predicate does
receive this.context. -/
def asyncFilterDrain (p : α → Nat → Option γ → Bool) (c : Option γ) :
    List α → Nat → List α
  | [], _ => []
  | v :: rest, i =>
    if p v i c then v :: asyncFilterDrain p c rest (i + 1)
    else asyncFilterDrain p c rest (i + 1)

/-- BaseAsyncStream.toArray applied to a FilterAsyncStream. -/
def FilterAsyncStream.toArray (s : FilterStream α γ) : List α :=
  asyncFilterDrain s.predicate s.context s.iterator s.index

/-- Synchronous MappingStream.next applies this.mapper(value, this.index++,
this.context): unlike the synchronous filter, the mapper does receive the
context.  This models the drain of a MappingStream over an array-backed
upstream, recording each mapper result. -/
def MappingStream.toArray (mapper : α → Nat → Option γ → β) :
    List α → Nat → Option γ → List β
  | [], _, _ => []
  | v :: rest, i, c => mapper v i c :: MappingStream.toArray mapper rest (i + 1) c

/-- Truthiness of the optional numeric end argument of slice: undefined and
0 are falsy, every other number is truthy. -/
def jsTruthy : Option Int → Bool
  | none => false
  | some n => n != 0

/-- BaseStream.slice(begin, end) followed by toArray.  The source throws a
RangeError when begin is negative, or when end is truthy and negative; it
then filters on begin <= i < end when end is truthy, and on begin <= i
otherwise - so end = 0 is treated exactly like an absent end.  The
resulting FilterStream is drained over the array-backed source. -/
def sliceToArray (S : List α) (b : Int) (e : Option Int) :
    Except JSError (List α) :=
  if b < 0 then .error .rangeError
  else if jsTruthy e && e.getD 0 < 0 then .error .rangeError
  else
    let p : α → Nat → Option Unit → Bool :=
      if jsTruthy e then fun _ i _ => decide (b ≤ (i : Int)) && decide ((i : Int) < e.getD 0)
      else fun _ i _ => decide (b ≤ (i : Int))
    .ok (FilterStream.toArray ⟨S, p, none, 0⟩)

/-- Upstream iterator instrumented with a counter of how many times its
next() method has been invoked, to settle temporal claims about which
upstream a pull reaches. -/
structure CountingIterator (α : Type) where
  elems : List α
  calls : Nat
deriving DecidableEq

/-- Instrumented iterator-protocol next: every invocation, including those
made after the iterator is exhausted, increments the call counter. -/
def CountingIterator.next : CountingIterator α → Option α × CountingIterator α
  | ⟨[], c⟩ => (none, ⟨[], c + 1⟩)
  | ⟨v :: rest, c⟩ => (some v, ⟨rest, c + 1⟩)

/-- ConcatenatedStream state: the two upstream iterators. -/
structure ConcatenatedStream (α : Type) where
  iterator1 : CountingIterator α
  iterator2 : CountingIterator α
deriving DecidableEq

/-- ConcatenatedStream.next: every pull first invokes iterator1.next();
only when that reports done does it invoke iterator2.next() and return
that result.  Matches the synchronous source; the asynchronous
ConcatenatedAsyncStream.next has the same structure through a promise. -/
def ConcatenatedStream.next (s : ConcatenatedStream α) :
    Option α × ConcatenatedStream α :=
  match s.iterator1.next with
  | (some v, it1) => (some v, ⟨it1, s.iterator2⟩)
  | (none, it1) =>
    match s.iterator2.next with
    | (r, it2) => (r, ⟨it1, it2⟩)

/-- Synchronous FlattenedStream state: the outer iterator (a stream of
inner sequences, modelled array-backed) and the current inner stream
(array-backed via the default accessor Stream.from; Stream.EMPTY is the
empty list). -/
structure FlattenedStream (α : Type) where
  outer : List (List α)
  inner : List α
deriving DecidableEq

/-- FlattenedStream._nextOuter: pulls the outer iterator once; when done,
sets the inner stream to Stream.EMPTY, otherwise to the stream obtained
from the accessor applied to the outer value (the default accessor wraps
the nested array itself). -/
def FlattenedStream.nextOuter : FlattenedStream α → FlattenedStream α
  | ⟨[], _⟩ => ⟨[], []⟩
  | ⟨o :: os, _⟩ => ⟨os, o⟩

/-- FlattenedStream constructor: stores the outer iterator and immediately
runs _nextOuter to prime the first inner stream. -/
def FlattenedStream.make (outer : List (List α)) : FlattenedStream α :=
  FlattenedStream.nextOuter ⟨outer, []⟩

/-- Synchronous FlattenedStream.next: pull the inner stream; if it yields a
value return it; otherwise advance the outer iterator exactly once via
_nextOuter and return the result of a single pull on the new inner stream,
without retrying - so a done result from the new inner stream is returned
as the flattened stream's own done result. -/
def FlattenedStream.next : FlattenedStream α → Option α × FlattenedStream α
  | ⟨outer, v :: rest⟩ => (some v, ⟨outer, rest⟩)
  | ⟨outer, []⟩ =>
    match FlattenedStream.nextOuter ⟨outer, []⟩ with
    | ⟨outer', v :: rest⟩ => (some v, ⟨outer', rest⟩)
    | ⟨outer', []⟩ => (none, ⟨outer', []⟩)

/-- BaseStream.toArray over a FlattenedStream: pulls until done.  The fuel
bounds the number of pulls; the drain stops at the first done result, and
any fuel at least total size plus one suffices. -/
def FlattenedStream.toArray : Nat → FlattenedStream α → List α
  | 0, _ => []
  | fuel + 1, s =>
    match s.next with
    | (none, _) => []
    | (some v, s') => v :: FlattenedStream.toArray fuel s'

/-- Asynchronous FlattenedAsyncStream state: the constructor maps the outer
iterator through the stream accessor, so pulling outer yields an inner
stream directly, and it primes outer_value with the first outer pull.
outerVal holds that resolved pull: none means the outer signaled done. -/
structure FlattenedAsyncStream (α : Type) where
  outerVal : Option (List α)
  outer : List (List α)
deriving DecidableEq

/-- FlattenedAsyncStream constructor: this.outer_value = this.outer.next(). -/
def FlattenedAsyncStream.make : List (List α) → FlattenedAsyncStream α
  | [] => ⟨none, []⟩
  | o :: os => ⟨some o, os⟩

/-- Loop of the asynchronous FlattenedAsyncStream.next: when the primed
outer pull is done, report done; otherwise pull the current inner stream,
and when the inner is done, advance outer_value to the next outer pull and
retry by calling this.next() again - the recursion that skips empty inner
streams.  When the advanced outer pull is itself done, the retry
immediately reports done, which the model inlines. -/
def fasScan : Option (List α) → List (List α) →
    Option α × FlattenedAsyncStream α
  | none, os => (none, ⟨none, os⟩)
  | some (v :: rest), os => (some v, ⟨some rest, os⟩)
  | some [], [] => (none, ⟨none, []⟩)
  | some [], o :: os => fasScan (some o) os

/-- Asynchronous FlattenedAsyncStream.next. -/
def FlattenedAsyncStream.next (s : FlattenedAsyncStream α) :
    Option α × FlattenedAsyncStream α :=
  fasScan s.outerVal s.outer

/-- BaseAsyncStream.toArray over a FlattenedAsyncStream (drain through
forEach, which collects values in pull order until done). -/
def FlattenedAsyncStream.toArray : Nat → FlattenedAsyncStream α → List α
  | 0, _ => []
  | fuel + 1, s =>
    match s.next with
    | (none, _) => []
    | (some v, s') => v :: FlattenedAsyncStream.toArray fuel s'

/-- BaseStream.find: loops pulling next(), invoking
predicate(item.value, index++, context) on each value, returning the first
value for which the predicate is true, and undefined when the stream ends
first.  Element type fixed to JSVal because the claims about find and some
concern undefined and null results. -/
def findJS (p : JSVal → Nat → Bool) : List JSVal → Nat → JSVal
  | [], _ => .undef
  | v :: rest, i => if p v i then v else findJS p rest (i + 1)

/-- BaseStream.some: return this.find(predicate) != undefined, a loose
inequality that is false when find returns undefined or null.  The
asynchronous variant applies the same comparison to the resolved find. -/
def someJS (S : List JSVal) (p : JSVal → Nat → Bool) : Bool :=
  !looseEqUndefined (findJS p S 0)

/-- Specification-side helper: the first element, scanning with the running
index, on which the predicate is true. -/
def firstMatchVal (p : JSVal → Nat → Bool) : List JSVal → Nat → Option JSVal
  | [], _ => none
  | v :: rest, i => if p v i then some v else firstMatchVal p rest (i + 1)

/-- Call trace of BaseStream.find: the list of index values at which the
predicate is invoked.  The loop calls the predicate once per pulled value
and returns as soon as it is true, so after a true result no further
indices are recorded. -/
def findCalls (p : α → Nat → Bool) : List α → Nat → List Nat
  | [], _ => []
  | v :: rest, i => i :: (if p v i then [] else findCalls p rest (i + 1))

/-- Call trace of BaseStream.findIndex: structurally the same loop as find
(the predicate is invoked once per value until the first true). -/
def findIndexCalls (p : α → Nat → Bool) : List α → Nat → List Nat
  | [], _ => []
  | v :: rest, i => i :: (if p v i then [] else findIndexCalls p rest (i + 1))

/-- Call trace of BaseStream.some, which delegates to this.find. -/
def someCalls (p : α → Nat → Bool) (S : List α) (i : Nat) : List Nat :=
  findCalls p S i

/-- Call trace of BaseStream.every: the loop continues while the previous
predicate result was true, so the predicate is invoked once per value up to
and including the first value on which it is false. -/
def everyCalls (p : α → Nat → Bool) : List α → Nat → List Nat
  | [], _ => []
  | v :: rest, i => i :: (if p v i then everyCalls p rest (i + 1) else [])

/-- Call trace of BaseAsyncStream.every: the check continuation returns
true when the pull is done, recurses on the next pull when the predicate
holds, and stops returning false otherwise - the same trace as the
synchronous every. -/
def asyncEveryCalls (p : α → Nat → Bool) : List α → Nat → List Nat
  | [], _ => []
  | v :: rest, i => i :: (if p v i then asyncEveryCalls p rest (i + 1) else [])

/-- Specification-side helper: the index of the first element, scanning
with the running index, on which the predicate is true. -/
def firstSatIdx (p : α → Nat → Bool) : List α → Nat → Option Nat
  | [], _ => none
  | v :: rest, i => if p v i then some i else firstSatIdx p rest (i + 1)

/-- JavaScript Map.set: when the key is already present, the existing entry
keeps its position and its value is replaced; otherwise the entry is
appended in insertion order.  Assigning obj[key] = value on a plain object
follows the same rule for string keys, so the toObject loop is modelled
with the same operation. -/
def mapSet [DecidableEq κ] : List (κ × β) → κ → β → List (κ × β)
  | [], k, v => [(k, v)]
  | (k', v') :: rest, k, v =>
    if k' = k then (k, v) :: rest else (k', v') :: mapSet rest k v

/-- JavaScript Map.get / property read: the value of the entry with the
given key, if any. -/
def mapGet [DecidableEq κ] : List (κ × β) → κ → Option β
  | [], _ => none
  | (k', v') :: rest, k => if k' = k then some v' else mapGet rest k

/-- BaseStream.toMap: loops over the stream in order, executing
map.set(key(item.value), value(item.value)) for each element. -/
def toMapModel [DecidableEq κ] (S : List α) (key : α → κ) (val : α → β) :
    List (κ × β) :=
  S.foldl (fun m e => mapSet m (key e) (val e)) []

/-- BaseStream.toObject: loops over the stream in order, executing
obj[key(item.value)] = value(item.value) for each element; property keys
are strings. -/
def toObjectModel (S : List α) (key : α → String) (val : α → β) :
    List (String × β) :=
  S.foldl (fun o e => mapSet o (key e) (val e)) []

/-- Specification-side helper: the value derived from the last element of
the list whose key maps to k. -/
def lastMatch [DecidableEq κ] (key : α → κ) (val : α → β) (k : κ) :
    List α → Option β
  | [] => none
  | e :: rest =>
    match lastMatch key val k rest with
    | some v => some v
    | none => if key e = k then some (val e) else none

/-- Concrete three-pull run of a concatenated stream whose first upstream
holds one element: the states reached after one, two and three pulls. -/
def concatPull1 : ConcatenatedStream Int :=
  (ConcatenatedStream.next ⟨⟨[1], 0⟩, ⟨[2, 3], 0⟩⟩).2

/-- State after the second pull (the pull during which iterator1 first
reports done). -/
def concatPull2 : ConcatenatedStream Int :=
  (ConcatenatedStream.next concatPull1).2

/-- State after the third pull. -/
def concatPull3 : ConcatenatedStream Int :=
  (ConcatenatedStream.next concatPull2).2

theorem arrayDrain_id (S : List α) : arrayDrain S = S := by
  induction S with
  | nil => rfl
  | cons v rest ih => simp [arrayDrain, ih]

theorem asyncForEachVisits_map_fst (S : List α) :
    ∀ i, (asyncForEachVisits S i).map Prod.fst = S := by
  induction S with
  | nil => intro i; rfl
  | cons v rest ih => intro i; simp [asyncForEachVisits, ih]

/-- Sanity link: FilterStream.toArray is exactly the drain of
FilterStream.next (collect values until next reports done). -/
theorem FilterStream.toArray_eq_drain (s : FilterStream α γ) :
    s.toArray = (match s.next with
      | (none, _) => []
      | (some v, s') => v :: s'.toArray) := by
  obtain ⟨it, p, c, i⟩ := s
  induction it generalizing i with
  | nil => rfl
  | cons v rest ih =>
    by_cases h : p v i none
    · simp [FilterStream.toArray, FilterStream.next, filterDrain, filterScan, h]
    · simp only [FilterStream.toArray, FilterStream.next, filterDrain,
        filterScan, h, Bool.false_eq_true, if_false]
      simpa [FilterStream.toArray, FilterStream.next] using ih (i + 1)

theorem FilterStream.toArray_eq_nil (p : α → Nat → Option γ → Bool)
    (c : Option γ) (S : List α) (i : Nat)
    (h : ∀ j, i ≤ j → j < i + S.length → ∀ v, p v j none = false) :
    FilterStream.toArray ⟨S, p, c, i⟩ = [] := by
  simp only [FilterStream.toArray]
  induction S generalizing i with
  | nil => rfl
  | cons v rest ih =>
    have hv : p v i none = false := h i le_rfl (by simp) v
    simp only [filterDrain, hv, Bool.false_eq_true, if_false]
    refine ih (i + 1) (fun j hj hj' w => h j (by omega) ?_ w)
    simp only [List.length_cons]
    omega

theorem findJS_eq_firstMatchVal (p : JSVal → Nat → Bool) (S : List JSVal) :
    ∀ i, findJS p S i = (firstMatchVal p S i).getD .undef := by
  induction S with
  | nil => intro i; rfl
  | cons v rest ih =>
    intro i
    by_cases h : p v i <;> simp [findJS, firstMatchVal, h, ih]

theorem firstSatIdx_ge (p : α → Nat → Bool) (S : List α) :
    ∀ i k, firstSatIdx p S i = some k → i ≤ k := by
  induction S with
  | nil => intro i k h; simp [firstSatIdx] at h
  | cons v rest ih =>
    intro i k h
    by_cases hv : p v i
    · simp [firstSatIdx, hv] at h; omega
    · simp [firstSatIdx, hv] at h
      have := ih (i + 1) k h
      omega

theorem findCalls_eq_range (p : α → Nat → Bool) (S : List α) :
    ∀ i k, firstSatIdx p S i = some k →
      findCalls p S i = List.range' i (k + 1 - i) := by
  induction S with
  | nil => intro i k h; simp [firstSatIdx] at h
  | cons v rest ih =>
    intro i k h
    by_cases hv : p v i
    · simp [firstSatIdx, hv] at h
      subst h
      simp [findCalls, hv, List.range']
    · simp [firstSatIdx, hv] at h
      have hik : i + 1 ≤ k := firstSatIdx_ge p rest (i + 1) k h
      have : k + 1 - i = (k + 1 - (i + 1)) + 1 := by omega
      rw [this, List.range'_succ]
      simp [findCalls, hv, ih (i + 1) k h]

theorem findIndexCalls_eq_findCalls (p : α → Nat → Bool) (S : List α) :
    ∀ i, findIndexCalls p S i = findCalls p S i := by
  induction S with
  | nil => intro i; rfl
  | cons v rest ih => intro i; simp [findIndexCalls, findCalls, ih]

theorem everyCalls_eq_findCalls (p : α → Nat → Bool) (S : List α) :
    ∀ i, everyCalls p S i = findCalls (fun v j => !p v j) S i := by
  induction S with
  | nil => intro i; rfl
  | cons v rest ih =>
    intro i
    by_cases hv : p v i <;> simp [everyCalls, findCalls, hv, ih]

theorem asyncEveryCalls_eq_everyCalls (p : α → Nat → Bool) (S : List α) :
    ∀ i, asyncEveryCalls p S i = everyCalls p S i := by
  induction S with
  | nil => intro i; rfl
  | cons v rest ih => intro i; simp [asyncEveryCalls, everyCalls, ih]

theorem mapGet_mapSet [DecidableEq κ] (m : List (κ × β)) (k k' : κ) (v : β) :
    mapGet (mapSet m k v) k' = if k = k' then some v else mapGet m k' := by
  induction m with
  | nil => simp [mapSet, mapGet]
  | cons kv rest ih =>
    obtain ⟨a, b⟩ := kv
    by_cases hak : a = k
    · subst hak
      by_cases hkk : a = k' <;> simp [mapSet, mapGet, hkk]
    · by_cases hak' : a = k'
      · subst hak'
        simp [mapSet, mapGet, hak, ih]
        rw [if_neg (fun h => hak h.symm)]
      · simp [mapSet, mapGet, hak, hak', ih]

theorem foldl_mapSet_get [DecidableEq κ] (key : α → κ) (val : α → β)
    (S : List α) :
    ∀ (m : List (κ × β)) (k : κ),
      mapGet (S.foldl (fun m e => mapSet m (key e) (val e)) m) k
        = match lastMatch key val k S with
          | some v => some v
          | none => mapGet m k := by
  induction S with
  | nil => intro m k; rfl
  | cons e rest ih =>
    intro m k
    simp only [List.foldl_cons, lastMatch]
    rw [ih]
    cases hrest : lastMatch key val k rest with
    | some v => simp
    | none =>
      simp only [mapGet_mapSet]
      by_cases hk : key e = k <;> simp [hk]

/-- C1: flattening the source [[1,2],[],[3]] with the default stream
accessor.  The synchronous FlattenedStream.next advances the outer
iterator only once when the inner stream is exhausted and returns the next
inner pull without retrying, so the empty inner sequence makes the whole
flatten signal finished early: the synchronous variant yields [1,2], not
the [1,2,3] the claim requires (the source itself carries a TODO comment
admitting the bug).  The asynchronous variant retries recursively and
yields [1,2,3] as claimed. -/
theorem C1_flatten_empty_inner :
    FlattenedStream.toArray 10 (FlattenedStream.make [[1, 2], [], [3]])
        = ([1, 2] : List Int)
    ∧ FlattenedAsyncStream.toArray 10 (FlattenedAsyncStream.make [[1, 2], [], [3]])
        = ([1, 2, 3] : List Int) := by
  decide

/-- C2 counterexample: concatenating A = [1] with B = [2,3].  Iterator1
first reports done during the second pull, after which its call counter
stands at 2; the claim says its next() is never invoked again, so the
counter would stay at 2, but the third pull invokes iterator1.next() once
more, raising the counter to 3 (while the element is taken from B). -/
theorem C2_concat_repolls_after_done :
    concatPull2.iterator1 = ⟨[], 2⟩ ∧ concatPull3.iterator1 = ⟨[], 3⟩ := by
  decide

/-- C2 amended: once A has signaled finished, every subsequent pull of the
concatenated stream still invokes A's next() exactly once (incrementing
its call counter), discards the renewed finished result, and takes both
the yielded element and the finished signal from B only - A contributes no
further elements, but it is re-polled on every pull. -/
theorem C2_concat_after_done (s : ConcatenatedStream α)
    (h : s.iterator1.elems = []) :
    (s.next).1 = (s.iterator2.next).1
    ∧ (s.next).2.iterator1.elems = []
    ∧ (s.next).2.iterator1.calls = s.iterator1.calls + 1
    ∧ (s.next).2.iterator2 = (s.iterator2.next).2 := by
  obtain ⟨⟨e1, c1⟩, ⟨e2, c2⟩⟩ := s
  simp only at h
  subst h
  cases e2 <;> simp [ConcatenatedStream.next, CountingIterator.next]

/-- C2 witness: the amended statement at the concrete state where A = []
(already exhausted, 5 calls so far) and B = [7]. -/
theorem C2_concat_after_done_witness :
    ((⟨⟨[], 5⟩, ⟨[7], 0⟩⟩ : ConcatenatedStream Int).next).1
        = ((⟨[7], 0⟩ : CountingIterator Int).next).1
    ∧ ((⟨⟨[], 5⟩, ⟨[7], 0⟩⟩ : ConcatenatedStream Int).next).2.iterator1.elems = []
    ∧ ((⟨⟨[], 5⟩, ⟨[7], 0⟩⟩ : ConcatenatedStream Int).next).2.iterator1.calls
        = (⟨([] : List Int), 5⟩ : CountingIterator Int).calls + 1
    ∧ ((⟨⟨[], 5⟩, ⟨[7], 0⟩⟩ : ConcatenatedStream Int).next).2.iterator2
        = ((⟨[7], 0⟩ : CountingIterator Int).next).2 :=
  C2_concat_after_done ⟨⟨[], 5⟩, ⟨[7], 0⟩⟩ rfl

/-- C3 counterexample: the stream [null] with the constantly-true
predicate.  The predicate holds for the element null, so the claim requires
some to return true, but some returns find(pred) != undefined and the found
value null is loosely equal to undefined, so some returns false. -/
theorem C3_some_null :
    someJS [JSVal.null] (fun _ _ => true) = false
    ∧ (fun (_ : JSVal) (_ : Nat) => true) JSVal.null 0 = true := by
  decide

/-- C3 amended: some(pred) returns true iff at least one element satisfies
pred and the first such element is not loosely equal to undefined (i.e. is
neither undefined nor null); equivalently it returns find(pred) !=
undefined.  It still short-circuits: when the first satisfying element sits
at zero-based position k, the predicate is invoked exactly at positions 0
through k. -/
theorem C3_some_characterization (S : List JSVal) (p : JSVal → Nat → Bool) :
    (someJS S p = true
      ↔ ∃ v, firstMatchVal p S 0 = some v ∧ looseEqUndefined v = false)
    ∧ (∀ k, firstSatIdx p S 0 = some k →
        someCalls p S 0 = List.range' 0 (k + 1)) := by
  constructor
  · rw [someJS, findJS_eq_firstMatchVal]
    cases h : firstMatchVal p S 0 with
    | none => simp [looseEqUndefined]
    | some v => cases v <;> simp [looseEqUndefined]
  · intro k hk
    simpa using findCalls_eq_range p S 0 k hk

/-- C3 witness: the amended statement at the stream [5] with the
constantly-true predicate - some returns true and the predicate is invoked
only at position 0. -/
theorem C3_some_characterization_witness :
    someJS [JSVal.num 5] (fun _ _ => true) = true
    ∧ someCalls (fun (_ : JSVal) (_ : Nat) => true) [JSVal.num 5] 0 = [0] := by
  refine ⟨?_, ?_⟩
  · exact (C3_some_characterization [JSVal.num 5] (fun _ _ => true)).1.mpr
      ⟨JSVal.num 5, by decide, by decide⟩
  · have h := (C3_some_characterization [JSVal.num 5] (fun _ _ => true)).2 0
      (by decide)
    simpa using h

/-- C4: a FilterStream built by filter(pred, ctx) over the one-element
stream [1], with ctx = 7 and a predicate that is true iff its context
argument equals 7.  The synchronous FilterStream.next invokes the
predicate with only (value, index), so the predicate sees context
undefined and rejects the element: the drain is empty, although the claim
requires ctx to reach every predicate call (the source stores this.context
and documents it as passed through, and the asynchronous filter and the
mapping stream do pass it, yielding [1] and a mapper that observes 7). -/
theorem C4_filter_context :
    FilterStream.toArray
        ⟨([1] : List Int), fun _ _ c => decide (c = some 7), some 7, 0⟩ = []
    ∧ FilterAsyncStream.toArray
        ⟨([1] : List Int), fun _ _ c => decide (c = some 7), some 7, 0⟩ = [1]
    ∧ MappingStream.toArray (fun (v : Int) _ c => (v, c)) [1] 0 (some 7)
        = [(1, some 7)] := by
  decide

/-- C5 counterexample: Stream.from applied to a non-iterable object.  The
claim requires an immediate type-mismatch error with no stream produced,
but the source's documented fallback returns the one-element stream over
the source value. -/
theorem C5_from_no_error :
    streamFrom (Source.plainObject (42 : Int)) = Except.ok ⟨[42]⟩ := rfl

/-- C5 amended: Stream.from fails synchronously, with a TypeError and no
stream produced, only for nullish sources (null or undefined), where the
source[Symbol.iterator] property access itself throws; every other
non-iterable source (object or primitive) yields the one-element stream
containing it, with no error.  AsyncStream.from fails on every
non-iterable source with no stream produced, but not by a deliberate type
check: nullish and primitive sources make the in-operator test itself
throw a TypeError, while a non-iterable object reaches the fallback call
to Stream.of, whose name Stream is unbound in asyncstream.js
(ReferenceError). -/
theorem C5_from_behavior (v : α) (es : List α) :
    streamFrom (Source.iterable es) = .ok ⟨es⟩
    ∧ streamFrom (Source.plainObject v) = .ok ⟨[v]⟩
    ∧ streamFrom (Source.primitive v) = .ok ⟨[v]⟩
    ∧ streamFrom (Source.nullish : Source α) = .error .typeError
    ∧ asyncStreamFrom (Source.iterable es) = .ok ⟨es⟩
    ∧ asyncStreamFrom (Source.plainObject v) = .error .referenceError
    ∧ asyncStreamFrom (Source.primitive v) = .error .typeError
    ∧ asyncStreamFrom (Source.nullish : Source α) = .error .typeError :=
  ⟨rfl, rfl, rfl, rfl, rfl, rfl, rfl, rfl⟩

/-- C7: the stream [10].  The synchronous forEach invokes its callback with
zero-based indices as the claim states, but the asynchronous forEach
executes index++ before the callback, so the callback for the first
element receives index 1 instead of 0 - the code contradicts the zero-based
index contract every other combinator (including its own synchronous
mirror) follows. -/
theorem C7_forEach_index :
    forEachVisits ([10] : List Int) 0 = [(10, 0)]
    ∧ asyncForEachVisits ([10] : List Int) 0 = [(10, 1)] := by
  decide

/-- C9: construction followed by eager drain is the identity - for every
finite source sequence S, Stream.from(S).toArray() and the asynchronous
AsyncStream.from(S).toArray() (which drains through forEach) both return
S, element for element and in order. -/
theorem C9_round_trip (S : List α) :
    streamFrom (Source.iterable S) = .ok ⟨S⟩
    ∧ (ArrayStream.mk S).toArray = S
    ∧ asyncStreamFrom (Source.iterable S) = .ok ⟨S⟩
    ∧ asyncToArray S = S := by
  refine ⟨rfl, ?_, rfl, ?_⟩
  · exact arrayDrain_id S
  · exact asyncForEachVisits_map_fst S 0

/-- C6 counterexample: slice(2, 0) on the three-element source [1,2,3].
Here begin = 2 exceeds end = 0, so the claim requires an empty result, but
the guard end && end < 0 and the predicate choice both treat the falsy end
value 0 as an absent end, so the slice keeps every element from index 2 on
and yields [3]. -/
theorem C6_slice_end_zero :
    sliceToArray ([1, 2, 3] : List Int) 2 (some 0) = .ok [3] := rfl

/-- C6 amended: slice(begin, end) with 0 < end < begin yields an empty
stream, and slice(begin) with begin at or past the source length yields an
empty stream, with no error; but end = 0 is treated exactly like an absent
end (the result then runs from begin to the end of the source), and a
RangeError is raised precisely when begin is negative or end is a negative
number. -/
theorem C6_slice_amended (S : List α) (b : Int) :
    (∀ e : Int, 0 < e → e < b → sliceToArray S b (some e) = .ok [])
    ∧ ((S.length : Int) ≤ b → sliceToArray S b none = .ok [])
    ∧ sliceToArray S b (some 0) = sliceToArray S b none
    ∧ (∀ e : Option Int,
        sliceToArray S b e = .error .rangeError
          ↔ b < 0 ∨ ∃ n, e = some n ∧ n < 0) := by
  refine ⟨?_, ?_, ?_, ?_⟩
  · intro e he heb
    have hb : ¬ b < 0 := by omega
    have htr : jsTruthy (some e) = true := by
      simp [jsTruthy]; omega
    simp only [sliceToArray, htr, Option.getD_some, if_neg hb, if_true]
    rw [if_neg (by simp; omega)]
    refine congrArg Except.ok ?_
    apply FilterStream.toArray_eq_nil
    intro j _ _ v
    simp
    omega
  · intro hlen
    have hb : ¬ b < 0 := by
      have : (0 : Int) ≤ (S.length : Int) := by positivity
      omega
    have htr : jsTruthy (none : Option Int) = false := rfl
    simp only [sliceToArray, htr, if_neg hb, Bool.false_and,
      Bool.false_eq_true, if_false, Except.ok.injEq]
    apply FilterStream.toArray_eq_nil
    intro j _ hj v
    refine decide_eq_false ?_
    simp only [Nat.zero_add] at hj
    have : (j : Int) < (S.length : Int) := by exact_mod_cast hj
    omega
  · simp [sliceToArray, jsTruthy]
  · intro e
    cases e with
    | none =>
      by_cases hb : b < 0 <;>
        simp [sliceToArray, jsTruthy, hb]
    | some n =>
      by_cases hb : b < 0
      · simp only [sliceToArray, if_pos hb, true_iff]
        exact Or.inl hb
      · by_cases hn : n < 0
        · have hcond : (jsTruthy (some n) && decide ((some n : Option Int).getD 0 < 0)) = true := by
            simp [jsTruthy]; omega
          refine iff_of_true ?_ (Or.inr ⟨n, rfl, hn⟩)
          simp only [sliceToArray, if_neg hb]
          rw [if_pos hcond]
        · refine iff_of_false ?_ ?_
          · simp only [sliceToArray, if_neg hb]
            rw [if_neg (by simp [jsTruthy]; omega)]
            simp
          · intro hcl
            rcases hcl with h | ⟨m, hm, hm'⟩
            · exact hb h
            · cases hm
              exact hn hm'

/-- C6 witness: the amended statement at the source [1,2,3] with begin 5 -
slice(5, 2) and slice(5) are empty, slice(5, 0) equals slice(5), and
slice(5, -1) raises a RangeError. -/
theorem C6_slice_amended_witness :
    sliceToArray ([1, 2, 3] : List Int) 5 (some 2) = .ok []
    ∧ sliceToArray ([1, 2, 3] : List Int) 5 none = .ok []
    ∧ sliceToArray ([1, 2, 3] : List Int) 5 (some 0)
        = sliceToArray ([1, 2, 3] : List Int) 5 none
    ∧ sliceToArray ([1, 2, 3] : List Int) 5 (some (-1)) = .error .rangeError := by
  have h := C6_slice_amended ([1, 2, 3] : List Int) 5
  exact ⟨h.1 2 (by norm_num) (by norm_num),
    h.2.1 (by norm_num),
    h.2.2.1,
    (h.2.2.2 (some (-1))).mpr (Or.inr ⟨-1, rfl, by norm_num⟩)⟩

/-- C8: short-circuiting of find, findIndex, some (whose calls are those of
the find it delegates to) and of the synchronous and asynchronous every.
When the first element satisfying the predicate sits at zero-based position
k, the exact trace of predicate invocations for find/findIndex/some is the
index list 0, 1, ..., k; dually, when the first element falsifying the
predicate sits at position m, the trace for both variants of every is
0, 1, ..., m.  In particular no invocation happens past the deciding
element, and the invocation count is the deciding position plus one. -/
theorem C8_short_circuit (S : List α) (p q : α → Nat → Bool) (k m : Nat)
    (hp : firstSatIdx p S 0 = some k)
    (hq : firstSatIdx (fun v i => !q v i) S 0 = some m) :
    findCalls p S 0 = List.range' 0 (k + 1)
    ∧ findIndexCalls p S 0 = List.range' 0 (k + 1)
    ∧ someCalls p S 0 = List.range' 0 (k + 1)
    ∧ everyCalls q S 0 = List.range' 0 (m + 1)
    ∧ asyncEveryCalls q S 0 = List.range' 0 (m + 1) := by
  have h1 := findCalls_eq_range p S 0 k hp
  have h2 := findCalls_eq_range (fun v i => !q v i) S 0 m hq
  rw [Nat.sub_zero] at h1 h2
  refine ⟨h1, ?_, h1, ?_, ?_⟩
  · rw [findIndexCalls_eq_findCalls]; exact h1
  · rw [everyCalls_eq_findCalls]; exact h2
  · rw [asyncEveryCalls_eq_everyCalls, everyCalls_eq_findCalls]; exact h2

/-- C8 witness: over the source [1,2,3], the predicate v = 2 is first
satisfied at position 1 and the predicate v < 3 is first falsified at
position 2; the call traces are exactly [0,1] and [0,1,2]. -/
theorem C8_short_circuit_witness :
    findCalls (fun (v : Int) _ => decide (v = 2)) [1, 2, 3] 0 = List.range' 0 (1 + 1)
    ∧ findIndexCalls (fun (v : Int) _ => decide (v = 2)) [1, 2, 3] 0 = List.range' 0 (1 + 1)
    ∧ someCalls (fun (v : Int) _ => decide (v = 2)) [1, 2, 3] 0 = List.range' 0 (1 + 1)
    ∧ everyCalls (fun (v : Int) _ => decide (v < 3)) [1, 2, 3] 0 = List.range' 0 (2 + 1)
    ∧ asyncEveryCalls (fun (v : Int) _ => decide (v < 3)) [1, 2, 3] 0 = List.range' 0 (2 + 1) :=
  C8_short_circuit [1, 2, 3] (fun v _ => decide (v = 2))
    (fun v _ => decide (v < 3)) 1 2 (by decide) (by decide)

/-- C10: toMap and toObject insert entries in stream order through the
set/assign operation that overwrites the value of an existing key, so
looking up any key in the result returns the value derived from the last
element of the stream mapping to that key. -/
theorem C10_last_wins [DecidableEq κ] (S : List α) (key : α → κ)
    (val : α → β) (k : κ) (skey : α → String) (sk : String) :
    mapGet (toMapModel S key val) k = lastMatch key val k S
    ∧ mapGet (toObjectModel S skey val) sk = lastMatch skey val sk S := by
  constructor
  · simp only [toMapModel]
    rw [foldl_mapSet_get]
    cases lastMatch key val k S <;> simp [mapGet]
  · simp only [toObjectModel]
    rw [foldl_mapSet_get]
    cases lastMatch skey val sk S <;> simp [mapGet]

end IterPlumbing
